import Mathlib

/-!
A shallow embedding of the core logic of the `clash` repository
(`src/main.py`, `src/fetch_data.py`, `src/config.py`): the temporal war-day
policy, the league classifier, the audit engine with its sort, the paginated
war-log fetcher, and the data-acquisition driver of `main`.

Python dict-shaped JSON is modelled with structures; a dataset that may be
missing is an `Option`; Python integers are `Int` (unbounded); a Python
`sys.exit(1)` is the `Except.error` branch of the driver.  Python's stable
`list.sort(key=...)` is modelled as sorting by a total order on the key
extended with the element's original index (the canonical specification of a
stable sort by key).
-/

namespace Clash

/-! ## Data model (JSON records used by the core) -/

/-- One entry of `clan["memberList"]` (the fields the core reads). -/
structure Member where
  tag : String
  name : String
  role : String
  trophies : Int
  deriving Repr, DecidableEq

/-- One entry of `war["clan"]["participants"]` (the fields the core reads). -/
structure Participant where
  tag : String
  decksUsed : Int
  deriving Repr, DecidableEq

/-- The `clan` JSON document (the fields the core reads). -/
structure Clan where
  memberList : List Member
  clanWarTrophies : Int
  deriving Repr

/-- The status classes assigned by the audit loop in `main.py`. -/
inductive Status where
  | danger
  | warning
  | success
  deriving Repr, DecidableEq

/-- One element of `audit_results` (`main.py` lines 206-212). -/
structure AuditRow where
  name : String
  role : String
  decks_used : Int
  missing : Int
  status : Status
  deriving Repr, DecidableEq

/-- The `stats` tally dict (`main.py` line 184). -/
structure Stats where
  on_track : Nat
  warning : Nat
  danger : Nat
  deriving Repr, DecidableEq

/-! ## Temporal policy — `get_war_day_context` (`main.py` lines 94-122)

The source reads `datetime.now().weekday()`; the embedding takes the weekday
(Monday = 0 … Sunday = 6) as the parameter, the only input the function uses.
-/

/-- Model of the `day_names` table (`main.py` line 107). -/
def day_names : List String :=
  ["Segunda", "Terça", "Quarta", "Quinta", "Sexta", "Sábado", "Domingo"]

/-- The record returned by `get_war_day_context`. -/
structure WarDayContext where
  day_name : String
  war_day : Int
  target_decks : Int
  deriving Repr, DecidableEq

/-- Model of `get_war_day_context` (`main.py` lines 94-122): war day from weekday
(`war_day = weekday - 2` when `3 <= weekday <= 6`, else the Mon-Wed default 4)
and the cumulative deck target (`targets.get(weekday, 16)`). -/
def get_war_day_context (weekday : Nat) : WarDayContext :=
  let war_day : Int := if 3 ≤ weekday ∧ weekday ≤ 6 then (weekday : Int) - 2 else 4
  let target_decks : Int :=
    match weekday with
    | 3 => 4
    | 4 => 8
    | 5 => 12
    | 6 => 16
    | _ => 16
  { day_name := day_names.getD weekday ""
    war_day := war_day
    target_decks := target_decks }

/-! ## League classifier — `calculate_league` (`main.py` lines 124-130) -/

/-- Model of `calculate_league`: highest-threshold-first lookup on clan war trophies. -/
def calculate_league (trophies : Int) : String × String :=
  if trophies ≥ 3000 then ("Legendary", "Purple")
  else if trophies ≥ 1500 then ("Gold", "Gold")
  else if trophies ≥ 600 then ("Silver", "Silver")
  else ("Bronze", "Bronze")

/-! ## Audit engine (`main.py` lines 183-217) -/

/-- The dict comprehension `{p["tag"]: p for p in participants}` followed by
`participants.get(tag, {})`: for a duplicated tag the later entry wins, an
absent tag yields nothing. -/
def lookupParticipant (ps : List Participant) (tag : String) : Option Participant :=
  ps.foldl (fun acc p => if p.tag == tag then some p else acc) none

/-- Model of `p_data.get("decksUsed", 0)`: decks used by the participant found for
this tag, defaulting to 0 when the tag is absent. -/
def decksFor (ps : List Participant) (tag : String) : Int :=
  match lookupParticipant ps tag with
  | some p => p.decksUsed
  | none => 0

/-- The status ladder of the loop body (`main.py` lines 196-204). -/
def statusOf (decks missing : Int) : Status :=
  if decks = 0 then Status.danger
  else if missing > 0 then Status.warning
  else Status.success

/-- One iteration's `audit_results.append({...})` payload
(`main.py` lines 191-212). -/
def auditRow (target : Int) (ps : List Participant) (m : Member) : AuditRow :=
  let decks := decksFor ps m.tag
  let missing := max 0 (target - decks)
  { name := m.name
    role := m.role
    decks_used := decks
    missing := missing
    status := statusOf decks missing }

/-- The `stats[...] += 1` bumps of the loop body (`main.py` lines 197-204). -/
def bumpStats (s : Stats) : Status → Stats
  | Status.danger => { s with danger := s.danger + 1 }
  | Status.warning => { s with warning := s.warning + 1 }
  | Status.success => { s with on_track := s.on_track + 1 }

/-- The audit loop (`main.py` lines 183-212): guarded by
`if war and "clan" in war and "participants" in war["clan"]` — a war snapshot
that is absent (or lacks the nested participants collection, folded into the
`Option` here) skips the loop entirely, leaving `audit_results = []` and all
tallies 0. -/
def computeAudit (target : Int) (war : Option (List Participant))
    (memberList : List Member) : List AuditRow × Stats :=
  match war with
  | none => ([], ⟨0, 0, 0⟩)
  | some ps =>
    memberList.foldl
      (fun acc m =>
        let row := auditRow target ps m
        (acc.1 ++ [row], bumpStats acc.2 row.status))
      ([], ⟨0, 0, 0⟩)

/-- First component of the sort key on line 215:
`0 if status == "danger" else 1 if status == "warning" else 2`. -/
def statusRank : Status → Int
  | Status.danger => 0
  | Status.warning => 1
  | Status.success => 2

/-- The sort key of `audit_results.sort(key=lambda x: (..., -x["decks_used"]))`
(`main.py` line 215). -/
def pyKey (r : AuditRow) : Int × Int :=
  (statusRank r.status, -r.decks_used)

/-- Comparison used to model Python's stable sort by `pyKey`: the key extended
lexicographically with the element's original position.  On index-decorated
lists this order is total, transitive and antisymmetric, so every sorted
permutation coincides — the extension with the index is the canonical
specification of a stable sort by key, and the choice of sorting algorithm
below is semantically irrelevant. -/
def auditLeP (a b : AuditRow × Nat) : Prop :=
  (pyKey a.1).1 < (pyKey b.1).1 ∨
    ((pyKey a.1).1 = (pyKey b.1).1 ∧
      ((pyKey a.1).2 < (pyKey b.1).2 ∨
        ((pyKey a.1).2 = (pyKey b.1).2 ∧ a.2 ≤ b.2)))

instance : DecidableRel auditLeP := fun _a _b =>
  inferInstanceAs (Decidable (_ ∨ _ ∧ (_ ∨ _ ∧ _)))

/-- Model of `audit_results.sort(key=...)` (`main.py` line 215), with each row paired
with its original index so that the stability of Python's sort is captured by
a total order. -/
def sortAuditIdx (rows : List AuditRow) : List (AuditRow × Nat) :=
  (rows.enum.map fun p => (p.2, p.1)).insertionSort auditLeP

/-- The sorted `audit_results` sequence as `main.py` leaves it on line 215. -/
def sortAudit (rows : List AuditRow) : List AuditRow :=
  (sortAuditIdx rows).map (·.1)

instance : IsTotal (AuditRow × Nat) auditLeP :=
  ⟨by intro a b; unfold auditLeP; omega⟩

instance : IsTrans (AuditRow × Nat) auditLeP :=
  ⟨by intro a b c h1 h2; unfold auditLeP at h1 h2 ⊢; omega⟩

/-- Two same-status rows with different deck counts, in roster order:
the concrete input on which the sort direction is visible. -/
def cexRows : List AuditRow :=
  [⟨"ann", "member", 1, 3, Status.warning⟩,
   ⟨"bob", "member", 2, 2, Status.warning⟩]

/-! ## Paginated fetcher — `fetch_deep_war_log` (`fetch_data.py` lines 65-96)

The network is modelled as a function `src` from the request's cursor
(`none` on the first call, `some c` once `params["after"]` is set) to the
response: `none` for a failed call, `some page` for a JSON body.  The body's
`items` list and the optional `paging.cursors.after` token are the only
fields the loop reads; a body lacking the `items` key behaves exactly like a
failed call in the source (`"items" not in data` breaks too) and is folded
into `none`.  The inter-page `time.sleep(0.5)` is a pure delay with no
data-flow and is not modelled. -/

/-- One response body of the war-log endpoint as the fetch loop reads it. -/
structure Page (α κ : Type) where
  items : List α
  after : Option κ
  deriving Repr

/-- The `while page_count < max_pages` loop of `fetch_deep_war_log`
(`fetch_data.py` lines 74-94), returning the accumulated items together with
the number of page requests issued.  The loop guard `page_count < max_pages`
is carried as the remaining budget `fuel = max_pages - page_count`: the guard
holds exactly when `fuel > 0`, and `page_count += 1` on the continue path is
exactly `fuel` decreasing by one.  Each iteration makes one request; a failed
response, a body without items and a body whose item list is empty all break,
as does a body that declares no next-page cursor (after appending its items). -/
def fetchLoop (src : Option κ → Option (Page α κ)) (cursor : Option κ)
    (fuel : Nat) (all_logs : List α) (requests : Nat) :
    List α × Nat :=
  match fuel with
  | 0 => (all_logs, requests)
  | fuel' + 1 =>
    match src cursor with
    | none => (all_logs, requests + 1)
    | some data =>
      if data.items.isEmpty then (all_logs, requests + 1)
      else
        match data.after with
        | some c =>
          fetchLoop src (some c) fuel' (all_logs ++ data.items) (requests + 1)
        | none => (all_logs ++ data.items, requests + 1)

/-- Model of `fetch_deep_war_log` (`fetch_data.py` lines 65-96): empty accumulator, no
cursor, page counter 0 against the safety limit `max_pages = 20`, so the
initial budget is 20 pages. -/
def fetch_deep_war_log (src : Option κ → Option (Page α κ)) : List α × Nat :=
  fetchLoop src none 20 [] 0

/-! ## Driver — data acquisition and context assembly (`main.py` lines 142-217)

Each dataset is acquired as `load_json_if_fresh(...)` (the cache) with the
live `fetch_api(...)` as fallback; both are opaque I/O and enter the model as
`Option` parameters.  `sys.exit(1)` on a missing roster is the `Except.error`
branch; rendering (lines 219-234) happens strictly after `main` reaches the
`Except.ok` context. -/

/-- The flat context dict assembled by `main` (the fields built on
`main.py` lines 169-217; `generated_at` is a timestamp string with no logic
and is omitted). -/
structure Context where
  clan : Clan
  war : Option (List Participant)
  war_log : Option (List Int)
  league : String
  league_color : String
  day_name : String
  war_day : Int
  target_decks : Int
  audit_results : List AuditRow
  stats : Stats

/-- The context `main` assembles once the roster is available
(`main.py` lines 150-217): the current war and the war log fall back from
cache to live fetch but their absence is non-fatal; then league, war-day
context, audit and sort are computed. -/
def runMainCtx (clan : Clan) (cacheWar fetchWar : Option (List Participant))
    (cacheLog fetchLog : Option (List Int)) (weekday : Nat) : Context :=
  let war := cacheWar.orElse (fun _ => fetchWar)
  let war_log := cacheLog.orElse (fun _ => fetchLog)
  let league := calculate_league clan.clanWarTrophies
  let audit_info := get_war_day_context weekday
  let audit := computeAudit audit_info.target_decks war clan.memberList
  { clan := clan
    war := war
    war_log := war_log
    league := league.1
    league_color := league.2
    day_name := audit_info.day_name
    war_day := audit_info.war_day
    target_decks := audit_info.target_decks
    audit_results := sortAudit audit.1
    stats := audit.2 }

/-- Model of `main` from the roster fetch to the assembled context
(`main.py` lines 142-217): the roster falls back from cache to live fetch and
its absence aborts with exit status 1 before any rendering. -/
def runMain (cacheClan fetchClan : Option Clan)
    (cacheWar fetchWar : Option (List Participant))
    (cacheLog fetchLog : Option (List Int)) (weekday : Nat) :
    Except Unit Context :=
  match cacheClan.orElse (fun _ => fetchClan) with
  | none => Except.error ()
  | some clan =>
    Except.ok (runMainCtx clan cacheWar fetchWar cacheLog fetchLog weekday)

/-! ## Top players -/

/-- Modelled from the spec: the `topPlayers` computation of the Report
Context Assembler (spec §4.6) has no implementation under `src/` — the
context assembler in `main.py` (lines 166-217) builds the context without a
`topPlayers` entry, the computation living in the rendering layer, which is
outside `src/`.  Following the spec's words: "roster sorted by trophies
descending, truncated to the first 3 (or fewer if the roster has under 3
members) — stable sort, ties broken by original roster order."  As with the
audit sort, stability is modelled by extending the key with the original
roster index. -/
def topLeP (a b : Member × Nat) : Prop :=
  b.1.trophies < a.1.trophies ∨ (a.1.trophies = b.1.trophies ∧ a.2 ≤ b.2)

instance : DecidableRel topLeP := fun _a _b =>
  inferInstanceAs (Decidable (_ ∨ _ ∧ _))

/-- Modelled from the spec: the roster, decorated with original indices,
sorted by trophies descending with the index as tie-break, truncated to 3. -/
def topPlayersIdx (roster : List Member) : List (Member × Nat) :=
  ((roster.enum.map fun p => (p.2, p.1)).insertionSort topLeP).take 3

/-- Modelled from the spec: the first-3 truncation of the trophy-sorted
roster, without the index decoration. -/
def topPlayers (roster : List Member) : List Member :=
  (topPlayersIdx roster).map (·.1)

instance : IsTotal (Member × Nat) topLeP :=
  ⟨by intro a b; unfold topLeP; omega⟩

instance : IsTrans (Member × Nat) topLeP :=
  ⟨by intro a b c h1 h2; unfold topLeP at h1 h2 ⊢; omega⟩

/-- A two-member roster whose second member has more trophies. -/
def cexRoster : List Member :=
  [⟨"#A", "ann", "member", 100⟩, ⟨"#B", "bob", "member", 200⟩]

/-! ## Helper lemmas about the audit fold -/

/-- Unfolding the audit loop: the rows are the roster mapped through
`auditRow` and the stats are the fold of the status bumps. -/
theorem auditFold_eq (target : Int) (ps : List Participant) :
    ∀ (ms : List Member) (acc : List AuditRow × Stats),
      ms.foldl (fun acc m =>
        let row := auditRow target ps m
        (acc.1 ++ [row], bumpStats acc.2 row.status)) acc
      = (acc.1 ++ ms.map (auditRow target ps),
         ms.foldl (fun s m => bumpStats s (auditRow target ps m).status) acc.2)
  | [], acc => by simp
  | m :: ms, acc => by
    simp only [List.foldl_cons, List.map_cons]
    rw [auditFold_eq target ps ms]
    simp

/-- The audit rows produced when the war snapshot is present. -/
theorem computeAudit_fst (target : Int) (ps : List Participant) (ms : List Member) :
    (computeAudit target (some ps) ms).1 = ms.map (auditRow target ps) := by
  simp [computeAudit, auditFold_eq]

/-- Each status bump adds exactly one to the three-way tally total. -/
theorem bumpStats_total (s : Stats) (st : Status) :
    (bumpStats s st).on_track + (bumpStats s st).warning + (bumpStats s st).danger
      = s.on_track + s.warning + s.danger + 1 := by
  cases st <;> simp [bumpStats] <;> omega

/-- The stats fold adds exactly the number of members to the tally total. -/
theorem statsFold_total (target : Int) (ps : List Participant) :
    ∀ (ms : List Member) (s : Stats),
      (ms.foldl (fun s m => bumpStats s (auditRow target ps m).status) s).on_track
        + (ms.foldl (fun s m => bumpStats s (auditRow target ps m).status) s).warning
        + (ms.foldl (fun s m => bumpStats s (auditRow target ps m).status) s).danger
      = s.on_track + s.warning + s.danger + ms.length
  | [], s => by simp
  | m :: ms, s => by
    simp only [List.foldl_cons, List.length_cons]
    rw [statsFold_total target ps ms]
    rw [bumpStats_total]
    omega

/-! ## Claim theorems -/

/-- C1 (amended): the audit tallies satisfy `on_track + warning + danger =
len(roster)` exactly when the war snapshot is present; when it is absent the
audit loop is skipped, so the tallies sum to 0 (and no member is audited). -/
theorem audit_stats_partition (target : Int) (war : Option (List Participant))
    (ms : List Member) :
    (computeAudit target war ms).2.on_track + (computeAudit target war ms).2.warning
        + (computeAudit target war ms).2.danger
      = if war.isSome then ms.length else 0 := by
  cases war with
  | none => simp [computeAudit]
  | some ps => simp [computeAudit, auditFold_eq, statsFold_total]

/-- C1 fails as stated: with a one-member roster and the war snapshot absent,
the loop is skipped and the tallies sum to 0, not to `len(roster) = 1`. -/
theorem audit_stats_partition_cex :
    ¬ ((computeAudit 4 none [⟨"#Z0", "zoe", "member", 0⟩]).2.on_track
        + (computeAudit 4 none [⟨"#Z0", "zoe", "member", 0⟩]).2.warning
        + (computeAudit 4 none [⟨"#Z0", "zoe", "member", 0⟩]).2.danger
      = ([⟨"#Z0", "zoe", "member", 0⟩] : List Member).length) := by
  decide

/-- C3: the temporal policy is the stated pure function of the weekday:
Thursday (3) ↦ (war day 1, target 4), Friday ↦ (2, 8), Saturday ↦ (3, 12),
Sunday ↦ (4, 16), and Monday, Tuesday, Wednesday ↦ (4, 16). -/
theorem war_day_context_table :
    (get_war_day_context 3).war_day = 1 ∧ (get_war_day_context 3).target_decks = 4 ∧
    (get_war_day_context 4).war_day = 2 ∧ (get_war_day_context 4).target_decks = 8 ∧
    (get_war_day_context 5).war_day = 3 ∧ (get_war_day_context 5).target_decks = 12 ∧
    (get_war_day_context 6).war_day = 4 ∧ (get_war_day_context 6).target_decks = 16 ∧
    (get_war_day_context 0).war_day = 4 ∧ (get_war_day_context 0).target_decks = 16 ∧
    (get_war_day_context 1).war_day = 4 ∧ (get_war_day_context 1).target_decks = 16 ∧
    (get_war_day_context 2).war_day = 4 ∧ (get_war_day_context 2).target_decks = 16 := by
  decide

/-- C10: on every weekday 0-6 the cumulative target is exactly four decks per
war day: `target_decks = 4 * war_day` with `war_day ∈ {1, 2, 3, 4}`. -/
theorem target_decks_linear (weekday : Nat) (h : weekday ≤ 6) :
    (get_war_day_context weekday).target_decks
        = 4 * (get_war_day_context weekday).war_day ∧
    1 ≤ (get_war_day_context weekday).war_day ∧
    (get_war_day_context weekday).war_day ≤ 4 := by
  interval_cases weekday <;> decide

/-- Witness for C10 at weekday 0 (Monday). -/
theorem target_decks_linear_witness :
    (0 : Nat) ≤ 6 ∧
    ((get_war_day_context 0).target_decks = 4 * (get_war_day_context 0).war_day ∧
      1 ≤ (get_war_day_context 0).war_day ∧ (get_war_day_context 0).war_day ≤ 4) :=
  ⟨by decide, target_decks_linear 0 (by decide)⟩

/-! ### A concrete three-page source for the pagination scenario -/

/-- First page: ten items, next-page cursor present. -/
def warLogPage1 : Page Nat Nat := ⟨[0, 1, 2, 3, 4, 5, 6, 7, 8, 9], some 1⟩

/-- Second page: ten items, next-page cursor present. -/
def warLogPage2 : Page Nat Nat := ⟨[10, 11, 12, 13, 14, 15, 16, 17, 18, 19], some 2⟩

/-- Third page: ten items, next-page cursor present. -/
def warLogPage3 : Page Nat Nat := ⟨[20, 21, 22, 23, 24, 25, 26, 27, 28, 29], some 3⟩

/-- A source answering three ten-item pages, then a page with an empty item
list. -/
def threePageSrc : Option Nat → Option (Page Nat Nat)
  | none => some warLogPage1
  | some 1 => some warLogPage2
  | some 2 => some warLogPage3
  | some 3 => some ⟨[], none⟩
  | some _ => none

/-- C7: on three ten-item pages followed by an empty page, the fetcher
returns exactly the 30 items, pages in request order with each page's
internal order preserved, and issues exactly 4 requests. -/
theorem fetch_three_pages :
    fetch_deep_war_log threePageSrc
        = (warLogPage1.items ++ warLogPage2.items ++ warLogPage3.items, 4) ∧
    (fetch_deep_war_log threePageSrc).1.length = 30 := by
  decide

/-- A produced row's status is the status ladder applied to its own
`decks_used` and `missing` fields. -/
theorem auditRow_status (target : Int) (ps : List Participant) (m : Member) :
    (auditRow target ps m).status
      = statusOf (auditRow target ps m).decks_used (auditRow target ps m).missing :=
  rfl

/-- A produced row's `missing` field is the clamped deficit against its own
`decks_used` field. -/
theorem auditRow_missing (target : Int) (ps : List Participant) (m : Member) :
    (auditRow target ps m).missing
      = max 0 (target - (auditRow target ps m).decks_used) :=
  rfl

/-- C4: for every audited member the status classification is exhaustive,
mutually exclusive and evaluated in priority order: zero decks is `danger`
whatever the target, otherwise a positive deficit is `warning`, otherwise
`success`. -/
theorem audit_status_classification (target : Int) (war : Option (List Participant))
    (ms : List Member) :
    ∀ row ∈ (computeAudit target war ms).1,
      (row.decks_used = 0 → row.status = Status.danger) ∧
      (row.decks_used ≠ 0 → 0 < row.missing → row.status = Status.warning) ∧
      (row.decks_used ≠ 0 → ¬ 0 < row.missing → row.status = Status.success) := by
  cases war with
  | none => simp [computeAudit]
  | some ps =>
    rw [computeAudit_fst]
    intro row hrow
    rcases List.mem_map.mp hrow with ⟨m, _hm, rfl⟩
    refine ⟨fun h0 => ?_, fun hne hpos => ?_, fun hne hnpos => ?_⟩
    · rw [auditRow_status, statusOf, if_pos h0]
    · rw [auditRow_status, statusOf, if_neg hne, if_pos hpos]
    · rw [auditRow_status, statusOf, if_neg hne, if_neg hnpos]

/-- Witness for C4: a member with zero decks used (target 4) is classified
`danger`. -/
theorem audit_status_classification_witness :
    (auditRow 4 [] ⟨"#Z0", "zoe", "member", 0⟩).status = Status.danger :=
  ((audit_status_classification 4 (some []) [⟨"#Z0", "zoe", "member", 0⟩])
      (auditRow 4 [] ⟨"#Z0", "zoe", "member", 0⟩) (by decide)).1 (by decide)

/-- C5: every audited member's deficit is `max(0, target - decksUsed)` (thus
0 as soon as `decksUsed ≥ target`), and a member whose tag is absent from the
participation data is audited with `decksUsed = 0` rather than rejected. -/
theorem audit_missing_spec (target : Int) (war : Option (List Participant))
    (ms : List Member) :
    (∀ row ∈ (computeAudit target war ms).1,
      row.missing = max 0 (target - row.decks_used) ∧
      (target ≤ row.decks_used → row.missing = 0)) ∧
    (∀ ps, war = some ps → ∀ i (hi : i < ms.length),
      lookupParticipant ps (ms.get ⟨i, hi⟩).tag = none →
      ∃ hj : i < (computeAudit target war ms).1.length,
        ((computeAudit target war ms).1.get ⟨i, hj⟩).decks_used = 0) := by
  constructor
  · cases war with
    | none => simp [computeAudit]
    | some ps =>
      rw [computeAudit_fst]
      intro row hrow
      rcases List.mem_map.mp hrow with ⟨m, _hm, rfl⟩
      refine ⟨auditRow_missing target ps m, fun hle => ?_⟩
      rw [auditRow_missing]
      omega
  · rintro ps rfl i hi hlk
    rw [computeAudit_fst]
    refine ⟨by simpa using hi, ?_⟩
    simp only [List.get_eq_getElem, List.getElem_map]
    show (auditRow target ps ms[i]).decks_used = 0
    show decksFor ps ms[i].tag = 0
    rw [decksFor]
    rw [show ms[i] = ms.get ⟨i, hi⟩ from rfl, hlk]

/-- Witness for C5: a member with more decks than the target has deficit 0,
and a member whose tag is unknown to the participation data is audited with
`decksUsed = 0`. -/
theorem audit_missing_spec_witness :
    (auditRow 4 [⟨"#A", 5⟩] ⟨"#A", "ann", "member", 0⟩).missing = 0 ∧
    ∃ hj : 0 < (computeAudit 4 (some [⟨"#A", 5⟩]) [⟨"#B", "bob", "member", 0⟩]).1.length,
      ((computeAudit 4 (some [⟨"#A", 5⟩])
          [⟨"#B", "bob", "member", 0⟩]).1.get ⟨0, hj⟩).decks_used = 0 := by
  constructor
  · exact ((audit_missing_spec 4 (some [⟨"#A", 5⟩]) [⟨"#A", "ann", "member", 0⟩]).1
      (auditRow 4 [⟨"#A", 5⟩] ⟨"#A", "ann", "member", 0⟩) (by decide)).2 (by decide)
  · exact (audit_missing_spec 4 (some [⟨"#A", 5⟩]) [⟨"#B", "bob", "member", 0⟩]).2
      [⟨"#A", 5⟩] rfl 0 (by decide) (by decide)

/-! ### Pagination bounds -/

/-- The fetch loop issues at most one request per unit of remaining page
budget. -/
theorem fetchLoop_requests_le {α κ : Type} (src : Option κ → Option (Page α κ)) :
    ∀ (fuel : Nat) (cursor : Option κ) (acc : List α) (reqs : Nat),
      (fetchLoop src cursor fuel acc reqs).2 ≤ reqs + fuel := by
  intro fuel
  induction fuel with
  | zero => intro cursor acc reqs; simp [fetchLoop]
  | succ n ih =>
    intro cursor acc reqs
    rw [fetchLoop]
    cases h : src cursor with
    | none => simp
    | some data =>
      cases he : data.items.isEmpty with
      | true => simp [he]
      | false =>
        simp only [he, Bool.false_eq_true, if_false]
        cases ha : data.after with
        | none => simp
        | some c =>
          show (fetchLoop src (some c) n (acc ++ data.items) (reqs + 1)).2
              ≤ reqs + (n + 1)
          have := ih (some c) (acc ++ data.items) (reqs + 1)
          omega

/-- When every page of the source respects the page size, the fetch loop
accumulates at most `pageSize` items per unit of remaining budget. -/
theorem fetchLoop_items_le {α κ : Type} (src : Option κ → Option (Page α κ))
    (pageSize : Nat) (H : ∀ c p, src c = some p → p.items.length ≤ pageSize) :
    ∀ (fuel : Nat) (cursor : Option κ) (acc : List α) (reqs : Nat),
      (fetchLoop src cursor fuel acc reqs).1.length ≤ acc.length + fuel * pageSize := by
  intro fuel
  induction fuel with
  | zero => intro cursor acc reqs; simp [fetchLoop]
  | succ n ih =>
    intro cursor acc reqs
    have hstep : (n + 1) * pageSize = n * pageSize + pageSize := by ring
    rw [fetchLoop]
    cases h : src cursor with
    | none => simp
    | some data =>
      have hlen : data.items.length ≤ pageSize := H cursor data h
      cases he : data.items.isEmpty with
      | true => simp [he]
      | false =>
        simp only [he, Bool.false_eq_true, if_false]
        cases ha : data.after with
        | none =>
          show (acc ++ data.items, reqs + 1).1.length
              ≤ acc.length + (n + 1) * pageSize
          simp only [List.length_append]
          omega
        | some c =>
          show (fetchLoop src (some c) n (acc ++ data.items) (reqs + 1)).1.length
              ≤ acc.length + (n + 1) * pageSize
          have := ih (some c) (acc ++ data.items) (reqs + 1)
          simp only [List.length_append] at this
          omega

/-- C6: for every source — in particular one declaring a next cursor on every
response — the fetcher issues at most 20 page requests and, when every page
respects the page size, returns at most `20 * pageSize` items (and it
terminates: the loop consumes a budget of 20 pages). -/
theorem fetch_safety_bound {α κ : Type} (src : Option κ → Option (Page α κ))
    (pageSize : Nat) (H : ∀ c p, src c = some p → p.items.length ≤ pageSize) :
    (fetch_deep_war_log src).2 ≤ 20 ∧
    (fetch_deep_war_log src).1.length ≤ 20 * pageSize := by
  constructor
  · simpa using fetchLoop_requests_le src 20 none [] 0
  · simpa using fetchLoop_items_le src pageSize H 20 none [] 0

/-- A source that answers every request with one item and a next cursor. -/
def infiniteSrc : Option Nat → Option (Page Nat Nat) := fun _ => some ⟨[7], some 0⟩

/-- Witness for C6 on the infinite-cursor source with page size 1. -/
theorem fetch_safety_bound_witness :
    (fetch_deep_war_log infiniteSrc).2 ≤ 20 ∧
    (fetch_deep_war_log infiniteSrc).1.length ≤ 20 * 1 :=
  fetch_safety_bound infiniteSrc 1 (by
    intro c p h
    simp only [infiniteSrc] at h
    cases h
    decide)

/-- C8: losing the roster dataset to both the cache and the live fetch is
exactly the fatal case (exit status 1, before any context exists for the
rendering step); with the roster present the run always reaches an assembled
context, the current war and the war log degrading to their `Option`
fallbacks rather than raising. -/
theorem runMain_roster_policy (cc fc : Option Clan) (cw fw : Option (List Participant))
    (cl fl : Option (List Int)) (wd : Nat) :
    ((runMain cc fc cw fw cl fl wd = Except.error ()) ↔ (cc = none ∧ fc = none)) ∧
    (∀ clan, cc.orElse (fun _ => fc) = some clan →
      ∃ ctx, runMain cc fc cw fw cl fl wd = Except.ok ctx ∧ ctx.clan = clan ∧
        ctx.war = cw.orElse (fun _ => fw) ∧
        ctx.war_log = cl.orElse (fun _ => fl)) := by
  cases cc with
  | none =>
    cases fc with
    | none =>
      refine ⟨⟨fun _ => ⟨rfl, rfl⟩, fun _ => rfl⟩, ?_⟩
      intro clan h
      have h' : (none : Option Clan) = some clan := h
      exact Option.noConfusion h'
    | some c =>
      constructor
      · constructor
        · intro h
          have h' : Except.ok (ε := Unit) (runMainCtx c cw fw cl fl wd)
              = Except.error () := h
          exact Except.noConfusion h'
        · rintro ⟨-, h2⟩
          exact Option.noConfusion h2
      · intro clan h
        have h' : (some c : Option Clan) = some clan := h
        cases h'
        exact ⟨runMainCtx c cw fw cl fl wd, rfl, rfl, rfl, rfl⟩
  | some c =>
    constructor
    · constructor
      · intro h
        have h' : Except.ok (ε := Unit) (runMainCtx c cw fw cl fl wd)
            = Except.error () := h
        exact Except.noConfusion h'
      · rintro ⟨h1, -⟩
        exact Option.noConfusion h1
    · intro clan h
      have h' : (some c : Option Clan) = some clan := h
      cases h'
      exact ⟨runMainCtx c cw fw cl fl wd, rfl, rfl, rfl, rfl⟩

/-- Witness for C8: both roster sources absent aborts; a present roster with
every optional dataset absent still yields a context. -/
theorem runMain_roster_policy_witness :
    ((runMain none none none none none none 0 = Except.error ())
        ↔ ((none : Option Clan) = none ∧ (none : Option Clan) = none)) ∧
    (∃ ctx, runMain (some ⟨[], 0⟩) none none none none none 0 = Except.ok ctx ∧
      ctx.clan = ⟨[], 0⟩ ∧ ctx.war = none ∧ ctx.war_log = none) :=
  ⟨(runMain_roster_policy none none none none none none 0).1,
    (runMain_roster_policy (some ⟨[], 0⟩) none none none none none 0).2
      ⟨[], 0⟩ rfl⟩

/-! ### Stable-sort properties -/

/-- The indices of the index-decorated list are `0, 1, …` in order. -/
theorem decorate_map_snd {α : Type} (l : List α) :
    ((l.enum.map fun p => (p.2, p.1)).map (·.2)) = l.enum.map Prod.fst := by
  rw [List.map_map]
  rfl

/-- Stripping the decoration recovers the original list. -/
theorem decorate_map_fst {α : Type} (l : List α) :
    ((l.enum.map fun p => (p.2, p.1)).map (·.1)) = l := by
  rw [List.map_map]
  show l.enum.map Prod.snd = l
  rw [List.enum_eq_enumFrom, List.enumFrom_map_snd]

/-- Every element of the index-decorated list is the original list's entry at
its carried index. -/
theorem mem_decorate {α : Type} {l : List α} {p : α × Nat}
    (h : p ∈ l.enum.map fun q => (q.2, q.1)) :
    ∃ hlt : p.2 < l.length, p.1 = l.get ⟨p.2, hlt⟩ := by
  rcases List.mem_map.mp h with ⟨q, hq, rfl⟩
  have hget := List.mem_enum_iff_getElem?.mp hq
  rcases List.getElem?_eq_some_iff.mp hget with ⟨hlt, hgt⟩
  exact ⟨hlt, hgt.symm⟩

/-- The sorted decorated audit rows are sorted for the composite order. -/
theorem sortAuditIdx_sorted (rows : List AuditRow) :
    List.Sorted auditLeP (sortAuditIdx rows) :=
  List.sorted_insertionSort auditLeP _

/-- The decorated audit sort permutes the decorated input. -/
theorem sortAuditIdx_perm (rows : List AuditRow) :
    List.Perm (sortAuditIdx rows) (rows.enum.map fun p => (p.2, p.1)) :=
  List.perm_insertionSort auditLeP _

/-- The original indices carried through the audit sort are pairwise
distinct. -/
theorem sortAuditIdx_snd_nodup (rows : List AuditRow) :
    ((sortAuditIdx rows).map (·.2)).Nodup := by
  have hperm : List.Perm ((sortAuditIdx rows).map (·.2))
      ((rows.enum.map fun p => (p.2, p.1)).map (·.2)) :=
    (sortAuditIdx_perm rows).map _
  rw [decorate_map_snd] at hperm
  exact hperm.nodup_iff.mpr (List.nodup_enum_map_fst rows)

/-- C2 (amended): the audit output is a permutation of its input whose every
decorated element is an input row at its carried index; for `A` before `B` in
the output, `rank(A.status) ≤ rank(B.status)`; on equal ranks `decks_used` is
*descending* (`B.decks_used ≤ A.decks_used` — the source sorts by
`-decks_used`); and rows tying on both keys keep their original order. -/
theorem audit_sort_spec (rows : List AuditRow) :
    ((sortAudit rows).Perm rows) ∧
    (∀ p ∈ sortAuditIdx rows, ∃ hlt : p.2 < rows.length,
      p.1 = rows.get ⟨p.2, hlt⟩) ∧
    (∀ i j (hi : i < (sortAuditIdx rows).length)
        (hj : j < (sortAuditIdx rows).length), i < j →
      (statusRank ((sortAuditIdx rows).get ⟨i, hi⟩).1.status
          ≤ statusRank ((sortAuditIdx rows).get ⟨j, hj⟩).1.status) ∧
      (statusRank ((sortAuditIdx rows).get ⟨i, hi⟩).1.status
          = statusRank ((sortAuditIdx rows).get ⟨j, hj⟩).1.status →
        ((sortAuditIdx rows).get ⟨j, hj⟩).1.decks_used
          ≤ ((sortAuditIdx rows).get ⟨i, hi⟩).1.decks_used) ∧
      (statusRank ((sortAuditIdx rows).get ⟨i, hi⟩).1.status
          = statusRank ((sortAuditIdx rows).get ⟨j, hj⟩).1.status ∧
        ((sortAuditIdx rows).get ⟨i, hi⟩).1.decks_used
          = ((sortAuditIdx rows).get ⟨j, hj⟩).1.decks_used →
        ((sortAuditIdx rows).get ⟨i, hi⟩).2
          < ((sortAuditIdx rows).get ⟨j, hj⟩).2)) := by
  refine ⟨?_, ?_, ?_⟩
  · have hperm : List.Perm ((sortAuditIdx rows).map (·.1))
        ((rows.enum.map fun p => (p.2, p.1)).map (·.1)) :=
      (sortAuditIdx_perm rows).map _
    rw [decorate_map_fst] at hperm
    exact hperm
  · intro p hp
    exact mem_decorate ((sortAuditIdx_perm rows).mem_iff.mp hp)
  · intro i j hi hj hij
    have hrel : auditLeP ((sortAuditIdx rows).get ⟨i, hi⟩)
        ((sortAuditIdx rows).get ⟨j, hj⟩) :=
      (sortAuditIdx_sorted rows).rel_get_of_lt hij
    have hnd := sortAuditIdx_snd_nodup rows
    have hne : ((sortAuditIdx rows).get ⟨i, hi⟩).2
        ≠ ((sortAuditIdx rows).get ⟨j, hj⟩).2 := by
      intro hcontra
      have hmi : (((sortAuditIdx rows).map (·.2)).get
            ⟨i, by simpa using hi⟩)
          = (((sortAuditIdx rows).map (·.2)).get ⟨j, by simpa using hj⟩) := by
        simpa using hcontra
      have := (hnd.get_inj_iff).mp hmi
      simp only [Fin.mk.injEq] at this
      omega
    unfold auditLeP at hrel
    simp only [pyKey] at hrel
    rcases hrel with h1 | ⟨h1, h2 | ⟨h2, h3⟩⟩ <;>
      refine ⟨by omega, fun ha => by omega, fun ha => ?_⟩ <;>
      · obtain ⟨ha1, ha2⟩ := ha
        omega

/-- C2 fails as stated: on two same-status rows with 1 and 2 decks used, the
output places the 2-deck row first, so the secondary key is not ascending. -/
theorem audit_sort_spec_cex :
    statusRank ((sortAudit cexRows).get ⟨0, by decide⟩).status
        = statusRank ((sortAudit cexRows).get ⟨1, by decide⟩).status ∧
    ¬ ((sortAudit cexRows).get ⟨0, by decide⟩).decks_used
        ≤ ((sortAudit cexRows).get ⟨1, by decide⟩).decks_used := by
  decide

/-- Witness for C2 (amended) on the two-row input: rank ascending between the
two output positions. -/
theorem audit_sort_spec_witness :
    statusRank ((sortAuditIdx cexRows).get ⟨0, by decide⟩).1.status
        ≤ statusRank ((sortAuditIdx cexRows).get ⟨1, by decide⟩).1.status :=
  ((audit_sort_spec cexRows).2.2 0 1 (by decide) (by decide) (by decide)).1

/-- The truncated decorated top-player list is sorted for the
trophies-descending order. -/
theorem topPlayersIdx_sorted (roster : List Member) :
    List.Sorted topLeP (topPlayersIdx roster) :=
  List.Pairwise.sublist (List.take_sublist 3 _)
    (List.sorted_insertionSort topLeP _)

/-- The original indices carried by the top players are pairwise distinct. -/
theorem topPlayersIdx_snd_nodup (roster : List Member) :
    ((topPlayersIdx roster).map (·.2)).Nodup := by
  have hperm : List.Perm
      (((roster.enum.map fun p => (p.2, p.1)).insertionSort topLeP).map (·.2))
      ((roster.enum.map fun p => (p.2, p.1)).map (·.2)) :=
    (List.perm_insertionSort topLeP _).map _
  rw [decorate_map_snd] at hperm
  have hnd : (((roster.enum.map fun p => (p.2, p.1)).insertionSort
      topLeP).map (·.2)).Nodup :=
    hperm.nodup_iff.mpr (List.nodup_enum_map_fst roster)
  exact List.Nodup.sublist (List.Sublist.map _ (List.take_sublist 3 _)) hnd

/-- C9 (spec-modelled): `topPlayers` has `min 3 len(roster)` entries, every
decorated entry is the roster member at its carried index, trophies are
descending along the output, and trophy ties keep the original roster
order. -/
theorem topPlayers_spec (roster : List Member) :
    (topPlayers roster).length = min 3 roster.length ∧
    (∀ p ∈ topPlayersIdx roster, ∃ hlt : p.2 < roster.length,
      p.1 = roster.get ⟨p.2, hlt⟩) ∧
    (∀ i j (hi : i < (topPlayersIdx roster).length)
        (hj : j < (topPlayersIdx roster).length), i < j →
      (((topPlayersIdx roster).get ⟨j, hj⟩).1.trophies
        ≤ ((topPlayersIdx roster).get ⟨i, hi⟩).1.trophies) ∧
      (((topPlayersIdx roster).get ⟨i, hi⟩).1.trophies
          = ((topPlayersIdx roster).get ⟨j, hj⟩).1.trophies →
        ((topPlayersIdx roster).get ⟨i, hi⟩).2
          < ((topPlayersIdx roster).get ⟨j, hj⟩).2)) := by
  refine ⟨?_, ?_, ?_⟩
  · simp [topPlayers, topPlayersIdx, List.length_insertionSort,
      List.enum_eq_enumFrom]
  · intro p hp
    have hp1 : p ∈ (roster.enum.map fun q => (q.2, q.1)).insertionSort topLeP :=
      List.mem_of_mem_take hp
    exact mem_decorate ((List.perm_insertionSort topLeP _).mem_iff.mp hp1)
  · intro i j hi hj hij
    have hrel : topLeP ((topPlayersIdx roster).get ⟨i, hi⟩)
        ((topPlayersIdx roster).get ⟨j, hj⟩) :=
      (topPlayersIdx_sorted roster).rel_get_of_lt hij
    have hnd := topPlayersIdx_snd_nodup roster
    have hne : ((topPlayersIdx roster).get ⟨i, hi⟩).2
        ≠ ((topPlayersIdx roster).get ⟨j, hj⟩).2 := by
      intro hcontra
      have hmi : (((topPlayersIdx roster).map (·.2)).get
            ⟨i, by simpa using hi⟩)
          = (((topPlayersIdx roster).map (·.2)).get ⟨j, by simpa using hj⟩) := by
        simpa using hcontra
      have := (hnd.get_inj_iff).mp hmi
      simp only [Fin.mk.injEq] at this
      omega
    unfold topLeP at hrel
    rcases hrel with h1 | ⟨h1, h2⟩ <;>
      exact ⟨by omega, fun ha => by omega⟩

/-- Witness for C9 on the two-member roster: trophies descending between the
two output positions. -/
theorem topPlayers_spec_witness :
    ((topPlayersIdx cexRoster).get ⟨1, by decide⟩).1.trophies
      ≤ ((topPlayersIdx cexRoster).get ⟨0, by decide⟩).1.trophies :=
  ((topPlayers_spec cexRoster).2.2 0 1 (by decide) (by decide) (by decide)).1

end Clash
